import Mathlib

/-!
Shallow embedding of the subscription-bot core (`src/bot.py`): the member
store, the manual-request store, the in-process kick scheduler, and the
handlers `grant_access`, `kick_user_from_all_chats`, `schedule_all_kicks`,
`upsert_pending_manual_request`, `manual_admin_callback`, `redeem` text
construction, and `forcekick`.

Modelling conventions:
- UTC instants are natural numbers counted in seconds; `timedelta(days=30)`
  is `30 * 86400`, `timedelta(seconds=5)` is `5`.
- The two PostgreSQL tables `members` and `manual_requests` are lists of
  rows; SQL upserts become list updates keyed the way the schema keys them
  (`members.user_id` is the primary key; `manual_requests` has a partial
  unique index on `user_id WHERE status = 'PENDING'`).
- Telegram gateway calls (`ban_chat_member`, `create_chat_invite_link`) are
  oracles `Nat → Bool` / `Nat → Except String String` recording, per channel
  id, whether the call succeeds; a `try/except` that logs and continues is
  embedded as the recursion over the remaining channels happening
  unconditionally.
- `JobQueue.run_once` in python-telegram-bot creates a new job every time it
  is called; it does not cancel or replace existing jobs, even when they
  share the same `name`. It is therefore embedded as appending an entry to
  the job list.
-/

namespace StarsBot

/-- Number of subscription days, `SUB_DAYS = 30` in the source. -/
def SUB_DAYS : Nat := 30

/-- The subscription period `timedelta(days=SUB_DAYS)` in seconds. -/
def subscriptionPeriod : Nat := SUB_DAYS * 86400

/-- Row of the `members` table: `user_id BIGINT PRIMARY KEY`,
`username TEXT` (nullable), `expires_at TIMESTAMPTZ` (nullable). -/
structure Member where
  user_id : Nat
  username : Option String
  expires_at : Option Nat
deriving DecidableEq, Repr

/-- Status column of `manual_requests`: PENDING / APPROVED / REJECTED. -/
inductive ReqStatus where
  | PENDING
  | APPROVED
  | REJECTED
deriving DecidableEq, Repr

/-- Row of the `manual_requests` table. -/
structure ManualRequest where
  id : Nat
  user_id : Nat
  username : Option String
  code : String
  status : ReqStatus
  requested_at : Nat
  decided_at : Option Nat
deriving DecidableEq, Repr

/-- One entry of the in-process job queue, as installed by
`jq.run_once(kick_user_from_all_chats, when=..., data=\x7b"user_id": ...\x7d,
name=...)`. -/
structure KickJob where
  user_id : Nat
  fireAt : Nat
  jobName : String
deriving DecidableEq, Repr

/-- Whole mutable state touched by the handlers: the two tables, the
`BIGSERIAL` counter behind `manual_requests.id`, and the job queue. -/
structure BotState where
  members : List Member
  requests : List ManualRequest
  next_req_id : Nat
  jobs : List KickJob
deriving DecidableEq, Repr

/-- Predicate selecting the `members` row of a given user. -/
def memberFor (uid : Nat) (m : Member) : Bool :=
  m.user_id == uid

/-- Row lookup in `members` by primary key. -/
def get_member (ms : List Member) (uid : Nat) : Option Member :=
  ms.find? (memberFor uid)

/-- Embeds `get_expires_at`: `SELECT expires_at FROM members WHERE user_id=%s`;
returns `None` when the row is absent or its `expires_at` column is NULL. -/
def get_expires_at (ms : List Member) (uid : Nat) : Option Nat :=
  match ms.find? (memberFor uid) with
  | none => none
  | some m => m.expires_at

/-- Embeds `set_subscription`: `INSERT ... ON CONFLICT (user_id) DO UPDATE SET
username = EXCLUDED.username, expires_at = EXCLUDED.expires_at`. The primary
key makes at most one row match, so replacing the first match is the upsert. -/
def set_subscription (ms : List Member) (uid : Nat) (un : Option String)
    (e : Nat) : List Member :=
  match ms with
  | [] => [⟨uid, un, some e⟩]
  | m :: rest =>
    if m.user_id == uid then ⟨uid, un, some e⟩ :: rest
    else m :: set_subscription rest uid un e

/-- Embeds `is_admin`: membership in the `ADMIN_IDS` list. -/
def is_admin (admins : List Nat) (uid : Nat) : Bool :=
  admins.contains uid

theorem get_member_set_subscription (ms : List Member) (uid : Nat)
    (un : Option String) (e : Nat) :
    get_member (set_subscription ms uid un e) uid = some ⟨uid, un, some e⟩ := by
  induction ms with
  | nil => simp [get_member, set_subscription, List.find?, memberFor]
  | cons m rest ih =>
    by_cases h : m.user_id = uid
    · simp [get_member, set_subscription, h, List.find?, memberFor]
    · simpa [get_member, set_subscription, h, List.find?, memberFor] using ih

theorem get_expires_at_set_subscription (ms : List Member) (uid : Nat)
    (un : Option String) (e : Nat) :
    get_expires_at (set_subscription ms uid un e) uid = some e := by
  have h := get_member_set_subscription ms uid un e
  unfold get_member at h
  simp [get_expires_at, h]

/-- Job name used by `grant_access` and `schedule_all_kicks`:
`name=f"kick_\x7buser_id\x7d"`. -/
def kickName (uid : Nat) : String :=
  "kick_" ++ toString uid

/-- Embeds the ban loop of `kick_user_from_all_chats`: for every channel id
the job calls `ban_chat_member` inside `try/except`, so a failing call is
logged and the loop moves on to the next channel unconditionally. Each
channel is paired with whether its ban call succeeded. -/
def banFanout (banOk : Nat → Bool) : List Nat → List (Nat × Bool)
  | [] => []
  | ch :: rest => (ch, banOk ch) :: banFanout banOk rest

/-- Result of one firing of the kick job: the ban calls it attempted and the
job queue afterwards (the job never schedules anything). -/
structure KickResult where
  bans : List (Nat × Bool)
  jobs : List KickJob
deriving DecidableEq, Repr

/-- Embeds `kick_user_from_all_chats`: re-reads the persisted expiry; when it
is present and strictly in the future the job returns at once (no ban calls,
no scheduling); otherwise it attempts `ban_chat_member` on every configured
channel. -/
def kick_user_from_all_chats (ms : List Member) (channels : List Nat)
    (banOk : Nat → Bool) (jobs : List KickJob) (now uid : Nat) : KickResult :=
  match get_expires_at ms uid with
  | some e => if now < e then ⟨[], jobs⟩ else ⟨banFanout banOk channels, jobs⟩
  | none => ⟨banFanout banOk channels, jobs⟩

/-- Embeds the invite-link loop of `grant_access`: per channel, a preventive
`unban_chat_member` (failures swallowed) then `create_chat_invite_link`
inside `try/except`; a failure is logged and the loop continues. Each channel
is paired with the outcome of its invite-link creation. -/
def inviteFanout (invite : Nat → Except String String) :
    List Nat → List (Nat × Except String String)
  | [] => []
  | ch :: rest => (ch, invite ch) :: inviteFanout invite rest

/-- Links collected by the invite loop: only successful creations append to
`links`. -/
def linksOf (rs : List (Nat × Except String String)) : List String :=
  rs.filterMap fun r =>
    match r.2 with
    | .ok l => some l
    | .error _ => none

/-- Result of `grant_access`: the returned `new_expires`, the state after the
store write and the `run_once` call, and the invite links sent to the user. -/
structure GrantResult where
  new_expires : Nat
  state : BotState
  links : List String
deriving DecidableEq, Repr

/-- Embeds `grant_access`: reads the old expiry, takes
`base = old_expires if (old_expires and old_expires > now) else now`, sets
`new_expires = base + timedelta(days=SUB_DAYS)`, persists it with
`set_subscription`, installs a kick job via `jq.run_once` (which appends a
new entry; it does not cancel jobs already queued under the same name), and
runs the invite-link fan-out. -/
def grant_access (channels : List Nat) (invite : Nat → Except String String)
    (st : BotState) (uid : Nat) (un : Option String) (now : Nat) : GrantResult :=
  let old := get_expires_at st.members uid
  let base :=
    match old with
    | some e => if now < e then e else now
    | none => now
  let ne := base + subscriptionPeriod
  let members2 := set_subscription st.members uid un ne
  let jobs2 := st.jobs ++ [⟨uid, ne, kickName uid⟩]
  ⟨ne, { st with members := members2, jobs := jobs2 },
    linksOf (inviteFanout invite channels)⟩

/-- Embeds the startup loop of `schedule_all_kicks`: for every `members` row,
skip it when `expires_at` is NULL, otherwise run
`when = (now + timedelta(seconds=5)) if expires_at <= now else expires_at`
and install a kick job. The job queue is empty at startup, so the result is
exactly the list of installed entries, in table order. -/
def schedule_all_kicks (members : List (Nat × Option Nat)) (now : Nat) :
    List KickJob :=
  match members with
  | [] => []
  | (_, none) :: rest => schedule_all_kicks rest now
  | (uid, some e) :: rest =>
    ⟨uid, if e ≤ now then now + 5 else e, kickName uid⟩ ::
      schedule_all_kicks rest now

/-- Follows the words of the spec, for comparison with `schedule_all_kicks`:
`fire_at = max(expires_at, now + small_grace)` with the 5-second grace the
source uses. -/
def specBootFire (e now : Nat) : Nat :=
  max e (now + 5)

/-- Number of live job-queue entries for a given user. -/
def jobsFor (jobs : List KickJob) (uid : Nat) : Nat :=
  (jobs.filter fun j => j.user_id == uid).length

/-- Predicate selecting a PENDING `manual_requests` row of a given user —
the rows governed by the partial unique index
`uq_manual_requests_pending_user`. -/
def isPendingFor (uid : Nat) (r : ManualRequest) : Bool :=
  r.user_id == uid &&
    (match r.status with
     | .PENDING => true
     | _ => false)

/-- Embeds `get_pending_manual_request`:
`SELECT id, code, status, username FROM manual_requests WHERE user_id=%s AND
status='PENDING' ... LIMIT 1`. The partial unique index allows at most one
such row, so taking the first match is faithful. -/
def get_pending_manual_request (rows : List ManualRequest) (uid : Nat) :
    Option ManualRequest :=
  rows.find? (isPendingFor uid)

/-- The `ON CONFLICT ... DO UPDATE` arm of `upsert_pending_manual_request`:
when a PENDING row for the user exists, overwrite its `username`, `code` and
`requested_at` in place and report its `id`; otherwise report `none` so the
plain INSERT arm runs. -/
def updatePendingRow (uid : Nat) (un : Option String) (code : String)
    (now : Nat) : List ManualRequest → Option (Nat × List ManualRequest)
  | [] => none
  | r :: rest =>
    if isPendingFor uid r then
      some (r.id, { r with username := un, code := code, requested_at := now } :: rest)
    else
      match updatePendingRow uid un code now rest with
      | some (i, rest2) => some (i, r :: rest2)
      | none => none

/-- The error psycopg raises when `ON CONFLICT ON CONSTRAINT` names something
that is not a table constraint. -/
def pgUndefinedObject : String :=
  "UndefinedObject: constraint uq_manual_requests_pending_user for table manual_requests does not exist"

/-- Embeds `upsert_pending_manual_request` faithfully. The statement is
`INSERT INTO manual_requests (...) VALUES (..., 'PENDING', NOW())
ON CONFLICT ON CONSTRAINT uq_manual_requests_pending_user DO UPDATE SET ...
RETURNING id`, but `init_db` creates `uq_manual_requests_pending_user` with
`CREATE UNIQUE INDEX ... ON manual_requests (user_id) WHERE status =
'PENDING'` — a partial unique index, not a table constraint. PostgreSQL
resolves `ON CONFLICT ON CONSTRAINT` names only against table constraints,
and a partial index cannot back one, so it rejects the statement itself,
before touching any row, on every execution: the function raises, never
returns an id, and leaves the table and the serial counter unchanged (the
transaction is never committed). -/
def upsert_pending_manual_request (_rows : List ManualRequest)
    (_next_id : Nat) (_uid : Nat) (_un : Option String) (_code : String)
    (_now : Nat) : Except String (Nat × List ManualRequest × Nat) :=
  .error pgUndefinedObject

/-- Follows the words of the docstring and the spec, for comparison with
`upsert_pending_manual_request` — the upsert the INSERT was meant to perform:
keep one PENDING row per user, on conflict update its `username`, `code` and
`requested_at` in place and return its existing id, otherwise insert a fresh
row under the next serial id. The deployed SQL never reaches this behaviour. -/
def upsertPendingIntended (rows : List ManualRequest) (next_id : Nat)
    (uid : Nat) (un : Option String) (code : String) (now : Nat) :
    Nat × List ManualRequest × Nat :=
  match updatePendingRow uid un code now rows with
  | some (i, rows2) => (i, rows2, next_id)
  | none =>
    (next_id, rows ++ [⟨next_id, uid, un, code, .PENDING, now, none⟩], next_id + 1)

/-- Embeds `decide_manual_request`:
`UPDATE manual_requests SET status=%s, decided_at=NOW() WHERE id=%s`. -/
def decide_manual_request (rows : List ManualRequest) (req_id : Nat)
    (status : ReqStatus) (now : Nat) : List ManualRequest :=
  rows.map fun r =>
    if r.id == req_id then { r with status := status, decided_at := some now }
    else r

/-- Number of PENDING rows a user has. -/
def countPending (rows : List ManualRequest) (uid : Nat) : Nat :=
  (rows.filter (isPendingFor uid)).length

/-- Status of the row with a given id, if such a row exists. -/
def statusOf (rows : List ManualRequest) (req_id : Nat) : Option ReqStatus :=
  (rows.find? fun r => r.id == req_id).map ManualRequest.status

/-- Decoded callback data `man_approve:<user_id>:<req_id>` /
`man_reject:<user_id>:<req_id>` of the admin decision buttons. -/
structure Callback where
  action : String
  user_id : Nat
  req_id : Nat
deriving DecidableEq, Repr

/-- Observable outcome of `manual_admin_callback`, read off the message the
handler edits or sends before returning. -/
inductive DecideOutcome where
  | unauthorized
  | stale
  | rejectedOk
  | approvedOk (new_expires : Nat)
  | approvedGrantFailed
  | unknownAction
deriving DecidableEq, Repr

/-- Embeds `manual_admin_callback`. Order of checks follows the source:
admin allow-list, then fetch of the PENDING request for the user id in the
callback data (stale when absent), then the
`pending_id != req_id or pending_status != "PENDING"` guard (stale when it
trips), then the action branches. On approve, `decide_manual_request(req_id,
"APPROVED")` commits before `grant_access` is called; `grantRaises` says
whether `grant_access` raises, in which case the handler reports the failure
and keeps the decision (the request table is never written again). The raise
is modelled at the user-notification step of `grant_access`; wherever it
raises, `grant_access` never touches `manual_requests`. -/
def manual_admin_callback (admins channels : List Nat)
    (invite : Nat → Except String String) (grantRaises : Bool)
    (st : BotState) (admin_id : Nat) (cb : Callback) (now : Nat) :
    DecideOutcome × BotState :=
  if ¬ is_admin admins admin_id then (.unauthorized, st)
  else
    match get_pending_manual_request st.requests cb.user_id with
    | none => (.stale, st)
    | some p =>
      if p.id ≠ cb.req_id ∨ p.status ≠ .PENDING then (.stale, st)
      else if cb.action = "man_reject" then
        (.rejectedOk,
          { st with requests := decide_manual_request st.requests cb.req_id .REJECTED now })
      else if cb.action = "man_approve" then
        let st1 :=
          { st with requests := decide_manual_request st.requests cb.req_id .APPROVED now }
        if grantRaises then (.approvedGrantFailed, st1)
        else
          let r := grant_access channels invite st1 cb.user_id p.username now
          (.approvedOk r.new_expires, r.state)
      else (.unknownAction, st)

/-- Python truthiness of `user.username` (an optional string): `None` and the
empty string are falsy. -/
def pyTruthy : Option String → Bool
  | none => false
  | some s => !(s == "")

/-- Callback data of the approve button: `f"man_approve:\x7buser.id\x7d:\x7breq_id\x7d"`. -/
def approveData (uid rid : Nat) : String :=
  "man_approve:" ++ toString uid ++ ":" ++ toString rid

/-- Callback data of the reject button: `f"man_reject:\x7buser.id\x7d:\x7breq_id\x7d"`. -/
def rejectData (uid rid : Nat) : String :=
  "man_reject:" ++ toString uid ++ ":" ++ toString rid

/-- Embeds the `text = (...)` expression of `redeem` exactly as Python parses
it: the conditional expression has lower precedence than the implicit
concatenation of adjacent string literals, so
`"A" f"B" f"C" if user.username else f"D" f"E" f"F" f"G"` groups as
`("A" "B" "C") if user.username else ("D" "E" "F" "G")`. With a truthy
username the text is only the header, user and username lines; otherwise it
is only the `(none)`, user_id, code and req_id lines. -/
def redeemAdminText (full_name : String) (username : Option String)
    (uid req_id : Nat) (code : String) : String :=
  if pyTruthy username then
    "🧾 Richiesta pagamento manuale (PENDING)\n" ++
      "• user: " ++ full_name ++ "\n" ++
      "• username: @" ++ username.getD "" ++ "\n"
  else
    "• username: (none)\n" ++
      "• user_id: " ++ toString uid ++ "\n" ++
      "• code: " ++ code ++ "\n" ++
      "• req_id: " ++ toString req_id ++ "\n"

/-- The message `redeem` sends to each admin: the text plus the inline
keyboard whose two buttons carry the decision callback data. -/
structure AdminNotification where
  text : String
  approve_data : String
  reject_data : String
deriving DecidableEq, Repr

/-- Embeds `redeem`: runs the PENDING upsert first, with no try/except
around it, so the exception that statement raises on every execution
propagates out of the handler before the user reply and before any admin
notification is sent. Had the upsert returned, the handler would reply to
the user and send every `ADMIN_IDS` entry the notification built below
(each send wrapped in its own `try/except`). -/
def redeem (st : BotState) (uid : Nat) (username : Option String)
    (full_name : String) (code : String) (now : Nat) :
    Except String (BotState × Nat × AdminNotification) :=
  match upsert_pending_manual_request st.requests st.next_req_id uid username
      code now with
  | .error e => .error e
  | .ok u =>
    .ok ({ st with requests := u.2.1, next_req_id := u.2.2 }, u.1,
      ⟨redeemAdminText full_name username uid u.1 code,
        approveData uid u.1, rejectData uid u.1⟩)

/-- Job name used by `forcekick`:
`name=f"forcekick_\x7btarget_id\x7d_\x7bint(now.timestamp())\x7d"`. -/
def forcekickName (target now : Nat) : String :=
  "forcekick_" ++ toString target ++ "_" ++ toString now

/-- Embeds `forcekick`: admin check, then `set_subscription(target_id, None,
now)` and a kick job at `now + timedelta(seconds=2)`. -/
def forcekick (admins : List Nat) (st : BotState) (caller target now : Nat) :
    BotState :=
  if is_admin admins caller then
    { st with
        members := set_subscription st.members target none now,
        jobs := st.jobs ++ [⟨target, now + 2, forcekickName target now⟩] }
  else st

/-- Does the first list stand at the head of the second? -/
def leadsList : List Char → List Char → Bool
  | [], _ => true
  | _ :: _, [] => false
  | a :: as, b :: bs => a == b && leadsList as bs

/-- Does the first list occur contiguously anywhere inside the second? -/
def insideList (n : List Char) : List Char → Bool
  | [] => n.isEmpty
  | c :: t => leadsList n (c :: t) || insideList n t

theorem banFanout_channels (banOk : Nat → Bool) (channels : List Nat) :
    (banFanout banOk channels).map Prod.fst = channels := by
  induction channels with
  | nil => rfl
  | cons ch rest ih => simp [banFanout, ih]

theorem inviteFanout_channels (invite : Nat → Except String String)
    (channels : List Nat) :
    (inviteFanout invite channels).map Prod.fst = channels := by
  induction channels with
  | nil => rfl
  | cons ch rest ih => simp [inviteFanout, ih]

theorem isPendingFor_status {uid : Nat} {r : ManualRequest}
    (h : isPendingFor uid r = true) : r.user_id = uid ∧ r.status = .PENDING := by
  unfold isPendingFor at h
  cases hs : r.status <;> rw [hs] at h <;> simp_all

theorem statusOf_decide_manual_request (rows : List ManualRequest)
    (req_id : Nat) (s : ReqStatus) (now : Nat)
    (h : ∃ r ∈ rows, r.id = req_id) :
    statusOf (decide_manual_request rows req_id s now) req_id = some s := by
  induction rows with
  | nil => simp at h
  | cons r rest ih =>
    by_cases hr : r.id = req_id
    · have hhead : decide_manual_request (r :: rest) req_id s now =
          { r with status := s, decided_at := some now } ::
            decide_manual_request rest req_id s now := by
        simp [decide_manual_request, hr]
      rw [hhead]
      unfold statusOf
      rw [List.find?_cons_of_pos]
      · rfl
      · simpa using hr
    · have hrest : ∃ x ∈ rest, x.id = req_id := by
        rcases h with ⟨x, hx, hxid⟩
        rcases List.mem_cons.mp hx with rfl | hx2
        · exact absurd hxid hr
        · exact ⟨x, hx2, hxid⟩
      have hhead : decide_manual_request (r :: rest) req_id s now =
          r :: decide_manual_request rest req_id s now := by
        simp [decide_manual_request, hr]
      rw [hhead]
      unfold statusOf
      rw [List.find?_cons_of_neg]
      · simpa [statusOf] using ih hrest
      · simpa using hr

/-- A concrete external-gateway oracle whose invite-link creation always
fails; used to instantiate theorems at concrete inputs. -/
def noInvite : Nat → Except String String :=
  fun _ => Except.error "gateway down"

/-- Concrete state with one member whose expiry is 100. -/
def stOneMember : BotState :=
  ⟨[⟨1, none, some 100⟩], [], 1, []⟩

/-- C1: `grant_access` returns `base + subscription_period` where `base` is
the persisted expiry when present and strictly greater than `now` and `now`
otherwise; for a future expiry `e` the result is exactly
`e + subscriptionPeriod`, never `now + subscriptionPeriod`, and the returned
value is what `set_subscription` persists. -/
theorem grant_access_monotonic_extension (channels : List Nat)
    (invite : Nat → Except String String) (st : BotState) (uid : Nat)
    (un : Option String) (now : Nat) :
    get_expires_at (grant_access channels invite st uid un now).state.members uid =
      some (grant_access channels invite st uid un now).new_expires ∧
    (∀ e, get_expires_at st.members uid = some e → now < e →
      (grant_access channels invite st uid un now).new_expires =
          e + subscriptionPeriod ∧
        (grant_access channels invite st uid un now).new_expires ≠
          now + subscriptionPeriod) ∧
    (∀ e, get_expires_at st.members uid = some e → e ≤ now →
      (grant_access channels invite st uid un now).new_expires =
        now + subscriptionPeriod) ∧
    (get_expires_at st.members uid = none →
      (grant_access channels invite st uid un now).new_expires =
        now + subscriptionPeriod) := by
  refine ⟨?_, ?_, ?_, ?_⟩
  · unfold grant_access
    simp [get_expires_at_set_subscription]
  · intro e he hf
    unfold grant_access
    simp [he, hf]
    omega
  · intro e he hl
    unfold grant_access
    simp [he, Nat.not_lt.mpr hl]
  · intro he
    unfold grant_access
    simp [he]

theorem grant_access_monotonic_extension_witness :
    get_expires_at
        (grant_access [] noInvite stOneMember 1 none 50).state.members 1 =
      some (grant_access [] noInvite stOneMember 1 none 50).new_expires ∧
    (grant_access [] noInvite stOneMember 1 none 50).new_expires =
      100 + subscriptionPeriod := by
  have h := grant_access_monotonic_extension [] noInvite stOneMember 1 none 50
  exact ⟨h.1, (h.2.1 100 (by decide) (by decide)).1⟩

/-- C2: when the kick job fires and the re-read persisted expiry is present
and strictly in the future, the job attempts zero ban calls and leaves the
job queue untouched. -/
theorem kick_skips_when_renewed (ms : List Member) (channels : List Nat)
    (banOk : Nat → Bool) (jobs : List KickJob) (now uid e : Nat)
    (h : get_expires_at ms uid = some e) (hf : now < e) :
    kick_user_from_all_chats ms channels banOk jobs now uid = ⟨[], jobs⟩ := by
  unfold kick_user_from_all_chats
  simp [h, hf]

theorem kick_skips_when_renewed_witness :
    kick_user_from_all_chats [⟨1, none, some 100⟩] [10, 20] (fun _ => true)
        [] 50 1 = ⟨[], []⟩ :=
  kick_skips_when_renewed [⟨1, none, some 100⟩] [10, 20] (fun _ => true)
    [] 50 1 100 (by decide) (by decide)

/-- C8: both gateway fan-outs attempt every configured channel whatever the
per-channel outcomes are: a failing ban or invite-link creation is caught
and the loop still reaches all remaining channels. -/
theorem fanout_attempts_every_channel (banOk : Nat → Bool)
    (invite : Nat → Except String String) (channels : List Nat) :
    (banFanout banOk channels).map Prod.fst = channels ∧
    (inviteFanout invite channels).map Prod.fst = channels :=
  ⟨banFanout_channels banOk channels, inviteFanout_channels invite channels⟩

/-- Concrete state with a member row carrying a display name, for the
forcekick frame-effect claim. -/
def stNamedMember : BotState :=
  ⟨[⟨9, some "bob", some 500⟩], [], 1, []⟩

/-- C10: after `forcekick` by an admin, the target row exists and holds
`username = NULL` and `expires_at = now`, whatever was stored before (the
row is created when absent). -/
theorem forcekick_resets_row (admins : List Nat) (st : BotState)
    (caller target now : Nat) (h : is_admin admins caller = true) :
    get_member (forcekick admins st caller target now).members target =
      some ⟨target, none, some now⟩ := by
  unfold forcekick
  simp [h, get_member_set_subscription]

theorem forcekick_resets_row_witness :
    get_member (forcekick [1] stNamedMember 1 9 42).members 9 =
      some ⟨9, none, some 42⟩ :=
  forcekick_resets_row [1] stNamedMember 1 9 42 (by decide)

/-- Concrete state with one PENDING manual request (id 1, user 5). -/
def stOnePending : BotState :=
  ⟨[], [⟨1, 5, none, "X", .PENDING, 0, none⟩], 2, []⟩

/-- Concrete callback approving request 1 of user 5. -/
def cbApprove : Callback :=
  ⟨"man_approve", 5, 1⟩

/-- C4: on approve, the handler state after `manual_admin_callback` carries
exactly the `decide_manual_request(..., APPROVED)` write — whether or not
`grant_access` raises — so the request stays APPROVED after a grant failure,
and a failure is reported to the reviewer through the
`approvedGrantFailed` outcome. -/
theorem approve_recorded_before_grant (admins channels : List Nat)
    (invite : Nat → Except String String) (grantRaises : Bool) (st : BotState)
    (admin_id : Nat) (cb : Callback) (now : Nat) (p : ManualRequest)
    (hadm : is_admin admins admin_id = true)
    (hp : get_pending_manual_request st.requests cb.user_id = some p)
    (hid : p.id = cb.req_id)
    (hact : cb.action = "man_approve") :
    (manual_admin_callback admins channels invite grantRaises st admin_id cb now).2.requests =
      decide_manual_request st.requests cb.req_id .APPROVED now ∧
    statusOf
        (manual_admin_callback admins channels invite grantRaises st admin_id cb now).2.requests
        cb.req_id = some .APPROVED ∧
    (grantRaises = true →
      (manual_admin_callback admins channels invite grantRaises st admin_id cb now).1 =
        .approvedGrantFailed) := by
  have hpend : p.status = ReqStatus.PENDING :=
    (isPendingFor_status (List.find?_some hp)).2
  have hmem : p ∈ st.requests := List.mem_of_find?_eq_some hp
  have hguard : ¬ (p.id ≠ cb.req_id ∨ p.status ≠ ReqStatus.PENDING) := by
    simp [hid, hpend]
  have hreq :
      (manual_admin_callback admins channels invite grantRaises st admin_id cb now).2.requests =
        decide_manual_request st.requests cb.req_id .APPROVED now := by
    unfold manual_admin_callback
    rw [hact]
    cases grantRaises <;> simp [hadm, hp, hguard, grant_access]
  refine ⟨hreq, ?_, ?_⟩
  · rw [hreq]
    exact statusOf_decide_manual_request st.requests cb.req_id .APPROVED now
      ⟨p, hmem, hid⟩
  · intro hg
    unfold manual_admin_callback
    rw [hact, hg]
    simp [hadm, hp, hguard]

theorem approve_recorded_before_grant_witness :
    statusOf
        (manual_admin_callback [1] [] noInvite true stOnePending 1 cbApprove 10).2.requests
        1 = some .APPROVED ∧
    (manual_admin_callback [1] [] noInvite true stOnePending 1 cbApprove 10).1 =
      .approvedGrantFailed := by
  have h := approve_recorded_before_grant [1] [] noInvite true stOnePending 1
    cbApprove 10 ⟨1, 5, none, "X", .PENDING, 0, none⟩ (by decide) (by decide)
    (by decide) rfl
  exact ⟨h.2.1, h.2.2 rfl⟩

/-- C6: when the admin is authorized but no PENDING request exists for the
callback user, or the found request id differs from the callback request id,
the handler answers stale and mutates nothing; conversely any state change
implies a PENDING request matching the callback id was found (the fetch only
returns PENDING rows, so the status check can only pass). -/
theorem decide_stale_guard (admins channels : List Nat)
    (invite : Nat → Except String String) (grantRaises : Bool) (st : BotState)
    (admin_id : Nat) (cb : Callback) (now : Nat)
    (hadm : is_admin admins admin_id = true) :
    (get_pending_manual_request st.requests cb.user_id = none →
      manual_admin_callback admins channels invite grantRaises st admin_id cb now =
        (.stale, st)) ∧
    (∀ p, get_pending_manual_request st.requests cb.user_id = some p →
      p.id ≠ cb.req_id →
      manual_admin_callback admins channels invite grantRaises st admin_id cb now =
        (.stale, st)) ∧
    ((manual_admin_callback admins channels invite grantRaises st admin_id cb now).2 ≠ st →
      ∃ p, get_pending_manual_request st.requests cb.user_id = some p ∧
        p.id = cb.req_id ∧ p.status = .PENDING) := by
  refine ⟨?_, ?_, ?_⟩
  · intro hnone
    unfold manual_admin_callback
    simp [hadm, hnone]
  · intro p hp hne
    unfold manual_admin_callback
    simp [hadm, hp, hne]
  · intro hch
    rcases hfind : get_pending_manual_request st.requests cb.user_id with _ | p
    · exfalso
      apply hch
      unfold manual_admin_callback
      simp [hadm, hfind]
    · by_cases hguard : p.id = cb.req_id ∧ p.status = ReqStatus.PENDING
      · exact ⟨p, rfl, hguard.1, hguard.2⟩
      · exfalso
        apply hch
        have hguard2 : p.id ≠ cb.req_id ∨ p.status ≠ ReqStatus.PENDING := by
          tauto
        unfold manual_admin_callback
        simp [hadm, hfind, hguard2]

theorem decide_stale_guard_witness :
    manual_admin_callback [1] [] noInvite false ⟨[], [], 1, []⟩ 1 cbApprove 0 =
      (.stale, (⟨[], [], 1, []⟩ : BotState)) := by
  have h := decide_stale_guard [1] [] noInvite false ⟨[], [], 1, []⟩ 1 cbApprove 0
    (by decide)
  exact h.1 (by decide)

theorem updatePendingRow_eq_none (uid : Nat) (un : Option String)
    (code : String) (now : Nat) (rows : List ManualRequest)
    (h : get_pending_manual_request rows uid = none) :
    updatePendingRow uid un code now rows = none := by
  induction rows with
  | nil => rfl
  | cons r rest ih =>
    have hr : isPendingFor uid r = false := by
      have := List.find?_eq_none.mp h r (List.mem_cons_self r rest)
      simpa using this
    have hrest : get_pending_manual_request rest uid = none := by
      unfold get_pending_manual_request at h ⊢
      rw [List.find?_cons_of_neg] at h
      · exact h
      · simp [hr]
    unfold updatePendingRow
    simp [hr, ih hrest]

theorem countPending_eq_zero (rows : List ManualRequest) (uid : Nat)
    (h : get_pending_manual_request rows uid = none) :
    countPending rows uid = 0 := by
  unfold get_pending_manual_request at h
  have hall := List.find?_eq_none.mp h
  unfold countPending
  rw [List.length_eq_zero, List.filter_eq_nil_iff]
  intro a ha
  simpa using hall a ha

theorem updatePendingRow_eq_some (rows : List ManualRequest) (uid : Nat)
    (un : Option String) (code : String) (now : Nat) (p : ManualRequest)
    (h : get_pending_manual_request rows uid = some p) :
    ∃ rows2, updatePendingRow uid un code now rows = some (p.id, rows2) ∧
      get_pending_manual_request rows2 uid =
        some { p with username := un, code := code, requested_at := now } ∧
      countPending rows2 uid = countPending rows uid := by
  induction rows with
  | nil => simp [get_pending_manual_request] at h
  | cons r rest ih =>
    by_cases hr : isPendingFor uid r = true
    · have hp : p = r := by
        unfold get_pending_manual_request at h
        rw [List.find?_cons_of_pos _ hr] at h
        exact (Option.some.inj h).symm
      subst hp
      have hr2 : isPendingFor uid
          { p with username := un, code := code, requested_at := now } = true := hr
      refine ⟨{ p with username := un, code := code, requested_at := now } :: rest,
        ?_, ?_, ?_⟩
      · unfold updatePendingRow
        simp [hr]
      · unfold get_pending_manual_request
        rw [List.find?_cons_of_pos _ hr2]
      · unfold countPending
        simp [List.filter_cons, hr, hr2]
    · have hr2 : isPendingFor uid r = false := by simpa using hr
      have hrest : get_pending_manual_request rest uid = some p := by
        unfold get_pending_manual_request at h ⊢
        rw [List.find?_cons_of_neg] at h
        · exact h
        · simp [hr2]
      rcases ih hrest with ⟨rest2, h1, h2, h3⟩
      refine ⟨r :: rest2, ?_, ?_, ?_⟩
      · unfold updatePendingRow
        simp [hr2, h1]
      · unfold get_pending_manual_request at h2 ⊢
        rw [List.find?_cons_of_neg]
        · exact h2
        · simp [hr2]
      · unfold countPending at h3 ⊢
        simp [List.filter_cons, hr2, h3]

theorem upsertIntended_insert_case (rows : List ManualRequest) (nid uid : Nat)
    (un : Option String) (code : String) (now : Nat)
    (h : get_pending_manual_request rows uid = none) :
    upsertPendingIntended rows nid uid un code now =
      (nid, rows ++ [⟨nid, uid, un, code, .PENDING, now, none⟩], nid + 1) := by
  unfold upsertPendingIntended
  rw [updatePendingRow_eq_none uid un code now rows h]

/-- Supporting fact about the intended upsert `upsertPendingIntended`:
starting with no PENDING request for the user, a first upsert creates a
PENDING row and returns id `nid`; a second upsert for the same user returns
the same id, leaves exactly one PENDING row for the user, and that row
carries the second call's `username`, `code` and `requested_at` — this is
the behaviour the docstring and the spec describe, which the deployed SQL
never reaches. -/
theorem upsertIntended_resubmission (rows : List ManualRequest)
    (nid uid : Nat) (un1 un2 : Option String) (code1 code2 : String)
    (t1 t2 : Nat) (h : get_pending_manual_request rows uid = none) :
    (upsertPendingIntended rows nid uid un1 code1 t1).1 = nid ∧
    (upsertPendingIntended
        (upsertPendingIntended rows nid uid un1 code1 t1).2.1
        (upsertPendingIntended rows nid uid un1 code1 t1).2.2
        uid un2 code2 t2).1 = nid ∧
    countPending
        (upsertPendingIntended
            (upsertPendingIntended rows nid uid un1 code1 t1).2.1
            (upsertPendingIntended rows nid uid un1 code1 t1).2.2
            uid un2 code2 t2).2.1 uid = 1 ∧
    get_pending_manual_request
        (upsertPendingIntended
            (upsertPendingIntended rows nid uid un1 code1 t1).2.1
            (upsertPendingIntended rows nid uid un1 code1 t1).2.2
            uid un2 code2 t2).2.1 uid =
      some ⟨nid, uid, un2, code2, .PENDING, t2, none⟩ := by
  have h1 := upsertIntended_insert_case rows nid uid un1 code1 t1 h
  have hnp : isPendingFor uid
      (⟨nid, uid, un1, code1, .PENDING, t1, none⟩ : ManualRequest) = true := by
    simp [isPendingFor]
  have hp1 : get_pending_manual_request
      (rows ++ [⟨nid, uid, un1, code1, .PENDING, t1, none⟩]) uid =
      some ⟨nid, uid, un1, code1, .PENDING, t1, none⟩ := by
    unfold get_pending_manual_request at h ⊢
    rw [List.find?_append, h]
    simp [hnp]
  have hc1 : countPending
      (rows ++ [⟨nid, uid, un1, code1, .PENDING, t1, none⟩]) uid = 1 := by
    have h0 := countPending_eq_zero rows uid h
    unfold countPending at h0 ⊢
    rw [List.filter_append, List.length_append, h0]
    simp [hnp]
  rcases updatePendingRow_eq_some
      (rows ++ [⟨nid, uid, un1, code1, .PENDING, t1, none⟩]) uid un2 code2 t2
      ⟨nid, uid, un1, code1, .PENDING, t1, none⟩ hp1 with ⟨rows2, hu, hg2, hcc⟩
  have h2 : upsertPendingIntended
      (rows ++ [⟨nid, uid, un1, code1, .PENDING, t1, none⟩]) (nid + 1)
      uid un2 code2 t2 = (nid, rows2, nid + 1) := by
    unfold upsertPendingIntended
    rw [hu]
  rw [h1]
  refine ⟨rfl, ?_, ?_, ?_⟩
  · simpa using congrArg Prod.fst h2
  · have : (upsertPendingIntended
        (rows ++ [⟨nid, uid, un1, code1, .PENDING, t1, none⟩]) (nid + 1)
        uid un2 code2 t2).2.1 = rows2 := by rw [h2]
    simp only [this]
    rw [hcc, hc1]
  · have : (upsertPendingIntended
        (rows ++ [⟨nid, uid, un1, code1, .PENDING, t1, none⟩]) (nid + 1)
        uid un2 code2 t2).2.1 = rows2 := by rw [h2]
    simp only [this]
    exact hg2

theorem upsertIntended_resubmission_witness :
    (upsertPendingIntended [] 7 3 none "X" 10).1 = 7 ∧
    (upsertPendingIntended
        (upsertPendingIntended [] 7 3 none "X" 10).2.1
        (upsertPendingIntended [] 7 3 none "X" 10).2.2
        3 (some "al") "Y" 20).1 = 7 ∧
    countPending
        (upsertPendingIntended
            (upsertPendingIntended [] 7 3 none "X" 10).2.1
            (upsertPendingIntended [] 7 3 none "X" 10).2.2
            3 (some "al") "Y" 20).2.1 3 = 1 ∧
    get_pending_manual_request
        (upsertPendingIntended
            (upsertPendingIntended [] 7 3 none "X" 10).2.1
            (upsertPendingIntended [] 7 3 none "X" 10).2.2
            3 (some "al") "Y" 20).2.1 3 =
      some ⟨7, 3, some "al", "Y", .PENDING, 20, none⟩ :=
  upsertIntended_resubmission [] 7 3 none (some "al") "X" "Y" 10 20 (by rfl)

/-- C5: the idempotent resubmission the claim describes never occurs in the
program. The INSERT of `upsert_pending_manual_request` names the partial
unique index `uq_manual_requests_pending_user` in its `ON CONFLICT ON
CONSTRAINT` clause; PostgreSQL rejects that because the name is not a table
constraint, so the call raises on every input — evaluated here at a first
submission on an empty table — and `redeem` propagates the failure before
any reply or admin notification. The in-place update with a stable id that
the claim (and the function's own docstring) describes is proved of
`upsertPendingIntended`, the behaviour the deployed SQL never reaches. -/
theorem upsert_resubmission_never_happens :
    upsert_pending_manual_request [] 7 3 none "X" 10 =
      Except.error pgUndefinedObject ∧
    redeem ⟨[], [], 1, []⟩ 3 none "Al" "X" 10 =
      Except.error pgUndefinedObject :=
  ⟨rfl, rfl⟩

theorem jobsFor_append_one (jobs : List KickJob) (uid t : Nat) (s : String) :
    jobsFor (jobs ++ [⟨uid, t, s⟩]) uid = jobsFor jobs uid + 1 := by
  unfold jobsFor
  rw [List.filter_append, List.length_append]
  simp

/-- Concrete state with a member (expiry 100) and one live kick job for the
same user, as left behind by a previous extension or by the startup scan. -/
def stWithJob : BotState :=
  ⟨[⟨1, none, some 100⟩], [], 1, [⟨1, 100, kickName 1⟩]⟩

/-- C3 counterexample: extending the grant of a user who already has a live
scheduled kick entry leaves two live entries for that user, because
`jq.run_once` appends and never cancels; the claimed at-most-one invariant
fails at this concrete input. -/
theorem grant_access_does_not_replace_job :
    jobsFor (grant_access [] noInvite stWithJob 1 none 50).state.jobs 1 = 2 ∧
    ¬ jobsFor (grant_access [] noInvite stWithJob 1 none 50).state.jobs 1 ≤ 1 := by
  decide

/-- C3 amended: `grant_access` installs exactly one new revocation entry for
the user, firing at the returned expiry, and leaves every pre-existing entry
in place (so more than one live entry per user can coexist); a superseded
entry firing before the new expiry performs zero revoke calls, because the
job re-reads the persisted expiry — replacement semantics come from that
re-check, not from cancellation. -/
theorem grant_access_appends_job (channels : List Nat)
    (invite : Nat → Except String String) (st : BotState) (uid : Nat)
    (un : Option String) (now : Nat) (chans2 : List Nat) (banOk : Nat → Bool)
    (jobs2 : List KickJob) (tFire : Nat)
    (hf : tFire < (grant_access channels invite st uid un now).new_expires) :
    (grant_access channels invite st uid un now).state.jobs =
      st.jobs ++
        [⟨uid, (grant_access channels invite st uid un now).new_expires,
          kickName uid⟩] ∧
    jobsFor (grant_access channels invite st uid un now).state.jobs uid =
      jobsFor st.jobs uid + 1 ∧
    kick_user_from_all_chats
        (grant_access channels invite st uid un now).state.members
        chans2 banOk jobs2 tFire uid = ⟨[], jobs2⟩ := by
  have hjobs : (grant_access channels invite st uid un now).state.jobs =
      st.jobs ++
        [⟨uid, (grant_access channels invite st uid un now).new_expires,
          kickName uid⟩] := by
    unfold grant_access
    rfl
  have hget : get_expires_at
      (grant_access channels invite st uid un now).state.members uid =
      some (grant_access channels invite st uid un now).new_expires := by
    unfold grant_access
    simp [get_expires_at_set_subscription]
  refine ⟨hjobs, ?_, ?_⟩
  · rw [hjobs, jobsFor_append_one]
  · unfold kick_user_from_all_chats
    rw [hget]
    simp [hf]

theorem grant_access_appends_job_witness :
    jobsFor (grant_access [] noInvite stWithJob 1 none 50).state.jobs 1 =
      jobsFor stWithJob.jobs 1 + 1 ∧
    kick_user_from_all_chats
        (grant_access [] noInvite stWithJob 1 none 50).state.members
        [10] (fun _ => true) [] 60 1 = ⟨[], []⟩ := by
  have h := grant_access_appends_job [] noInvite stWithJob 1 none 50 [10]
    (fun _ => true) [] 60 (by decide)
  exact ⟨h.2.1, h.2.2⟩

/-- C7 counterexample: a grant expiring 2 seconds in the future (expiry 102,
now 100) is scheduled at its expiry 102, not at
`max(expires_at, now + 5) = 105` as the spec formula would have it. -/
theorem schedule_fire_not_spec_max :
    (schedule_all_kicks [(1, some 102)] 100).map KickJob.fireAt = [102] ∧
    specBootFire 102 100 = 105 ∧ ¬ (102 : Nat) = 105 := by
  decide

/-- C7 amended: the startup scan installs exactly one entry per grant with a
present expiry (none for NULL expiries): the entry of expiry `e` fires at
`e` when `e > now` — even inside the 5-second grace window — and at
`now + 5` when `e ≤ now`, so every installed entry fires strictly after
`now` and already-expired grants fire within 5 seconds rather than being
dropped. -/
theorem schedule_all_kicks_spec (members : List (Nat × Option Nat))
    (now : Nat) :
    (schedule_all_kicks members now).length =
      (members.filter fun m => m.2.isSome).length ∧
    (∀ uid e, (uid, some e) ∈ members →
      (⟨uid, if e ≤ now then now + 5 else e, kickName uid⟩ : KickJob) ∈
          schedule_all_kicks members now ∧
        now < (if e ≤ now then now + 5 else e)) ∧
    (∀ j, j ∈ schedule_all_kicks members now →
      ∃ uid e, (uid, some e) ∈ members ∧
        j = ⟨uid, if e ≤ now then now + 5 else e, kickName uid⟩) := by
  induction members with
  | nil =>
    refine ⟨rfl, ?_, ?_⟩
    · intro uid e h
      simp at h
    · intro j hj
      simp [schedule_all_kicks] at hj
  | cons m rest ih =>
    rcases m with ⟨uid0, e0⟩
    rcases e0 with _ | e0
    · refine ⟨?_, ?_, ?_⟩
      · simpa [schedule_all_kicks, List.filter_cons] using ih.1
      · intro uid e hmem
        rcases List.mem_cons.mp hmem with heq | hmem2
        · simp [Prod.ext_iff] at heq
        · simpa [schedule_all_kicks] using ih.2.1 uid e hmem2
      · intro j hj
        rw [show schedule_all_kicks ((uid0, none) :: rest) now =
            schedule_all_kicks rest now from rfl] at hj
        rcases ih.2.2 j hj with ⟨uid, e, hm, hje⟩
        exact ⟨uid, e, List.mem_cons_of_mem _ hm, hje⟩
    · refine ⟨?_, ?_, ?_⟩
      · simpa [schedule_all_kicks, List.filter_cons] using ih.1
      · intro uid e hmem
        rcases List.mem_cons.mp hmem with heq | hmem2
        · have h1 : uid = uid0 ∧ e = e0 := by
            simpa [Prod.ext_iff] using heq
          rcases h1 with ⟨rfl, rfl⟩
          constructor
          · rw [show schedule_all_kicks ((uid, some e) :: rest) now =
              ⟨uid, if e ≤ now then now + 5 else e, kickName uid⟩ ::
                schedule_all_kicks rest now from rfl]
            exact List.mem_cons_self _ _
          · by_cases he : e ≤ now
            · simp [he]
            · simp [he]
              omega
        · have h2 := ih.2.1 uid e hmem2
          refine ⟨?_, h2.2⟩
          rw [show schedule_all_kicks ((uid0, some e0) :: rest) now =
              ⟨uid0, if e0 ≤ now then now + 5 else e0, kickName uid0⟩ ::
                schedule_all_kicks rest now from rfl]
          exact List.mem_cons_of_mem _ h2.1
      · intro j hj
        rw [show schedule_all_kicks ((uid0, some e0) :: rest) now =
            ⟨uid0, if e0 ≤ now then now + 5 else e0, kickName uid0⟩ ::
              schedule_all_kicks rest now from rfl] at hj
        rcases List.mem_cons.mp hj with rfl | hj2
        · exact ⟨uid0, e0, List.mem_cons_self _ _, rfl⟩
        · rcases ih.2.2 j hj2 with ⟨uid, e, hm, hje⟩
          exact ⟨uid, e, List.mem_cons_of_mem _ hm, hje⟩

theorem schedule_all_kicks_spec_witness :
    (schedule_all_kicks [(1, some 3), (2, none), (4, some 20)] 10).length = 2 ∧
    (⟨1, 15, kickName 1⟩ : KickJob) ∈
      schedule_all_kicks [(1, some 3), (2, none), (4, some 20)] 10 := by
  have h := schedule_all_kicks_spec [(1, some 3), (2, none), (4, some 20)] 10
  refine ⟨by simpa using h.1, ?_⟩
  simpa using (h.2.1 1 3 (by simp)).1

/-- C9: evaluating the admin notification text of `redeem` at a user whose
username is set: the conditional expression has lower precedence than the
implicit concatenation of adjacent literals, so the sent text consists only
of the header, user and username lines — the `user_id`, `code` and `req_id`
lines are dropped — while a user without a username gets the id lines but no
header. The decision buttons' callback data still carry the pair. -/
theorem redeem_admin_text_drops_ids :
    redeemAdminText "Alice" (some "alice") 7 3 "CODE" =
      "🧾 Richiesta pagamento manuale (PENDING)\n• user: Alice\n• username: @alice\n" ∧
    insideList ("user_id".data)
      (redeemAdminText "Alice" (some "alice") 7 3 "CODE").data = false ∧
    insideList ("req_id".data)
      (redeemAdminText "Alice" (some "alice") 7 3 "CODE").data = false ∧
    insideList ("user_id".data)
      (redeemAdminText "Alice" none 7 3 "CODE").data = true := by
  decide

end StarsBot
